import Mathlib

/-!
Verification development for `TEST_SIM_ESPIDF/TEST_SIM_HTTP_GET/main/hello_HTTP_SIM.c`:
an ESP32-S3 example that drives a SIM7600G modem over UART with AT commands to
perform one HTTPS GET.  The C strings are embedded as `List Char` (a C string
never contains an interior NUL), C `int` as unbounded `Int` (overflow is
undefined behaviour and outside every property's range), and the UART as an
environment that answers each `uart_read_bytes` call with either an error or
the bytes available on the wire.
-/

namespace HelloHttpSim

/-- C `strstr hay needle`: the suffix of `hay` beginning at the first
occurrence of `needle`, or `none` when `needle` does not occur.  (C returns a
pointer into `hay`; the suffix from that pointer is the faithful value.) -/
def strstr (hay needle : List Char) : Option (List Char) :=
  if needle.isPrefixOf hay then some hay
  else
    match hay with
    | [] => none
    | _ :: t => strstr t needle

/-- C `strchr s c` for a non-NUL character `c`: the suffix of `s` beginning at
the first occurrence of `c`, or `none`.  (`parse_http_length` only ever calls
it with `c = ','`.) -/
def strchr : List Char → Char → Option (List Char)
  | [], _ => none
  | a :: t, c => if a = c then some (a :: t) else strchr t c

/-- The whitespace class skipped by C `atoi` (`isspace` in the C locale). -/
def isCSpace (c : Char) : Bool :=
  c = ' ' || c = '\t' || c = '\n' || c = '\x0b' || c = '\x0c' || c = '\r'

/-- The digit-accumulation loop of C `atoi`: consume leading decimal digits,
stopping at the first non-digit. -/
def digitsToNat (acc : Nat) : List Char → Nat
  | [] => acc
  | c :: t => if c.isDigit then digitsToNat (acc * 10 + (c.toNat - 48)) t else acc

/-- C `atoi`: skip leading whitespace, accept one optional sign, then convert
the leading run of decimal digits (0 when there is none). -/
def atoi (s : List Char) : Int :=
  match s.dropWhile isCSpace with
  | [] => 0
  | c :: t =>
    if c = '-' then -(digitsToNat 0 t : Int)
    else if c = '+' then (digitsToNat 0 t : Int)
    else (digitsToNat 0 (c :: t) : Int)

/-- `parse_http_length` from `hello_HTTP_SIM.c`: find `"+HTTPACTION:"`, skip to
the second comma at or after it, and convert what follows with `atoi`;
0 whenever the marker or either comma is missing. -/
def parse_http_length (resp : List Char) : Int :=
  match strstr resp "+HTTPACTION:".data with
  | none => 0
  | some p =>
    match strchr p ',' with
    | none => 0
    | some q =>
      match strchr q.tail ',' with
      | none => 0
      | some r => atoi r.tail

/-- Decimal digits, least significant first, with explicit fuel so that the
recursion is structural (`fuel ≥ n` makes the fuel irrelevant). -/
def natDigitsRevAux : Nat → Nat → List Char
  | _, 0 => []
  | 0, _ + 1 => []
  | fuel + 1, n + 1 => Nat.digitChar ((n + 1) % 10) :: natDigitsRevAux fuel ((n + 1) / 10)

/-- Decimal digits of `n`, least significant first (empty for 0). -/
def natDigitsRev (n : Nat) : List Char := natDigitsRevAux n n

/-- Canonical decimal rendering of a natural number, as `printf "%u"` writes it. -/
def natDecimal (n : Nat) : List Char :=
  if n = 0 then ['0'] else (natDigitsRev n).reverse

/-- Decimal rendering of an integer, as `printf "%d"` writes it. -/
def intDecimal (i : Int) : List Char :=
  if i < 0 then '-' :: natDecimal i.natAbs else natDecimal i.toNat

/-- The follow-up command built by `snprintf(cmd, sizeof(cmd), "AT+HTTPREAD=0,%d", len)`
with `char cmd[32]`: `snprintf` stores at most 31 characters plus the NUL. -/
def httpReadCmd (len : Int) : List Char :=
  ("AT+HTTPREAD=0,".data ++ intDecimal len).take 31

/-- The untruncated text `snprintf` was asked to format. -/
def httpReadCmdFull (len : Int) : List Char :=
  "AT+HTTPREAD=0,".data ++ intDecimal len

/-- `esp_err_t` restricted to the two values `send_at` can return. -/
inductive EspErr
  | ESP_OK
  | ESP_FAIL
deriving DecidableEq, Repr

/-- What the UART delivers to one `uart_read_bytes` call: either a driver
error (a negative return value) or the bytes available on the wire within the
timeout (the call stores at most the requested number of them). -/
inductive ReadOutcome
  | err
  | data (avail : List Char)
deriving DecidableEq, Repr

/-- One observable action of `send_at` on the UART driver, in order. -/
inductive UartOp
  | flush
  | write (bytes : List Char)
  | read (maxLen : Nat) (timeoutTicks : Nat)
deriving DecidableEq, Repr

/-- Result of one `send_at` call: the returned `esp_err_t`, the contents of the
caller's response buffer afterwards, and the UART driver calls made, in order. -/
structure SendAtOut where
  err : EspErr
  buf : List Char
  ops : List UartOp
deriving DecidableEq, Repr

/-- `send_at` from `hello_HTTP_SIM.c`.  `buf` is the caller's buffer (the model
keeps its full contents, not only the C string in it), `buf_size` the
capacity argument, `timeout` the tick count passed to `uart_read_bytes`, and
`outcome` what the UART delivers.  On success the C code stores the received
bytes at the start of the buffer, writes `'\x00'` right after them and leaves
the remaining bytes untouched; on a read error it returns `ESP_FAIL` without
touching the buffer. -/
def send_at (cmd : List Char) (buf : List Char) (buf_size : Nat) (timeout : Nat)
    (outcome : ReadOutcome) : SendAtOut :=
  let ops := [UartOp.flush, UartOp.write cmd, UartOp.write "\r\n".data,
              UartOp.read (buf_size - 1) timeout]
  match outcome with
  | ReadOutcome.err => { err := EspErr.ESP_FAIL, buf := buf, ops := ops }
  | ReadOutcome.data avail =>
    let received := avail.take (buf_size - 1)
    { err := EspErr.ESP_OK,
      buf := received ++ '\x00' :: buf.drop (received.length + 1),
      ops := ops }

/-- `UART_BUF_SIZE` from the source; `sizeof(resp)` in `sim_http_get_sample`. -/
def UART_BUF_SIZE : Nat := 1024

/-- FreeRTOS `pdMS_TO_TICKS`.  The tick-rate conversion factor is irrelevant
to every property here, so the model uses a 1 ms tick. -/
def pdMS_TO_TICKS (ms : Nat) : Nat := ms

/-- The C string stored in a buffer: its bytes up to the first NUL. -/
def cString (buf : List Char) : List Char :=
  buf.takeWhile (fun c => c ≠ '\x00')

/-- State threaded through `sim_http_get_sample`: the `resp` buffer, how many
`send_at` calls have happened (to index the UART environment), and the
commands issued so far, in order. -/
structure SimSt where
  buf : List Char
  idx : Nat
  cmds : List (List Char)
deriving DecidableEq, Repr

/-- One `send_at(cmd, resp, sizeof(resp), timeout)` call site inside
`sim_http_get_sample`: feeds the environment's next outcome to `send_at`,
records the issued command, and hands back the returned `esp_err_t` (which
every call site discards). -/
def doSend (cmd : List Char) (timeout : Nat) (env : Nat → ReadOutcome)
    (s : SimSt) : EspErr × SimSt :=
  let out := send_at cmd s.buf UART_BUF_SIZE timeout (env s.idx)
  (out.err, { buf := out.buf, idx := s.idx + 1, cmds := s.cmds ++ [cmd] })

/-- The first ten straight-line calls of `sim_http_get_sample`: PDP bring-up
(five commands) and HTTP service setup (five commands). -/
def sim_setup_steps (resp0 : List Char) (env : Nat → ReadOutcome) : SimSt :=
  let s : SimSt := { buf := resp0, idx := 0, cmds := [] }
  let s := (doSend "AT+CGATT?".data (pdMS_TO_TICKS 500) env s).2
  let s := (doSend "AT+CGDCONT=1,\"IP\",\"everywhere\"".data (pdMS_TO_TICKS 500) env s).2
  let s := (doSend "AT+CGAUTH=1,1,\"eesecure\",\"secure\"".data (pdMS_TO_TICKS 500) env s).2
  let s := (doSend "AT+CGACT=1,1".data (pdMS_TO_TICKS 2000) env s).2
  let s := (doSend "AT+CGPADDR=1".data (pdMS_TO_TICKS 500) env s).2
  let s := (doSend "AT+HTTPTERM".data (pdMS_TO_TICKS 500) env s).2
  let s := (doSend "AT+HTTPINIT".data (pdMS_TO_TICKS 500) env s).2
  let s := (doSend "AT+HTTPSSL=1".data (pdMS_TO_TICKS 500) env s).2
  let s := (doSend "AT+HTTPPARA=\"URL\",\"https://alusys.io/test/sample.bin\"".data (pdMS_TO_TICKS 500) env s).2
  let s := (doSend "AT+HTTPPARA=\"READMODE\",1".data (pdMS_TO_TICKS 500) env s).2
  s

/-- `sim_http_get_sample` up to and including the `AT+HTTPACTION=0` call,
i.e. the state at the `int len = parse_http_length(resp);` line. -/
def sim_after_action (resp0 : List Char) (env : Nat → ReadOutcome) : SimSt :=
  (doSend "AT+HTTPACTION=0".data (pdMS_TO_TICKS 10000) env (sim_setup_steps resp0 env)).2

/-- `sim_http_get_sample` from `hello_HTTP_SIM.c`, from the first `send_at`
call onwards: parse the length from the buffer left by the `AT+HTTPACTION=0`
step, conditionally issue the `AT+HTTPREAD` follow-up, then tear down. -/
def sim_http_get_sample (resp0 : List Char) (env : Nat → ReadOutcome) : SimSt :=
  let s := sim_after_action resp0 env
  let len := parse_http_length (cString s.buf)
  let s := if 0 < len then (doSend (httpReadCmd len) (pdMS_TO_TICKS 10000) env s).2 else s
  let s := (doSend "AT+HTTPTERM".data (pdMS_TO_TICKS 500) env s).2
  let s := (doSend "AT+HTTPSSL=0".data (pdMS_TO_TICKS 500) env s).2
  s

/-- The value of `len` in `sim_http_get_sample` for a given run. -/
def parsedLen (resp0 : List Char) (env : Nat → ReadOutcome) : Int :=
  parse_http_length (cString (sim_after_action resp0 env).buf)

/-- The ten setup commands, in source order. -/
def setupCmds : List (List Char) :=
  ["AT+CGATT?".data,
   "AT+CGDCONT=1,\"IP\",\"everywhere\"".data,
   "AT+CGAUTH=1,1,\"eesecure\",\"secure\"".data,
   "AT+CGACT=1,1".data,
   "AT+CGPADDR=1".data,
   "AT+HTTPTERM".data,
   "AT+HTTPINIT".data,
   "AT+HTTPSSL=1".data,
   "AT+HTTPPARA=\"URL\",\"https://alusys.io/test/sample.bin\"".data,
   "AT+HTTPPARA=\"READMODE\",1".data]

/-- Every unconditional command before the gated follow-up read. -/
def preCmds : List (List Char) := setupCmds ++ ["AT+HTTPACTION=0".data]

/-- The two unconditional tear-down commands. -/
def postCmds : List (List Char) := ["AT+HTTPTERM".data, "AT+HTTPSSL=0".data]

/-- A UART environment whose every read errors. -/
def envAllErr : Nat → ReadOutcome := fun _ => ReadOutcome.err

/-- A UART environment that answers only the `AT+HTTPACTION=0` read (call
index 10) with a well-formed `+HTTPACTION` reply reporting 7 bytes. -/
def envAction7 : Nat → ReadOutcome := fun i =>
  if i = 10 then ReadOutcome.data "+HTTPACTION: 0,200,7".data else ReadOutcome.err

/-- C3: `send_at` returns `ESP_FAIL` exactly when the UART read itself errors
(returns a negative count), and `ESP_OK` otherwise, independent of the
content, length or completeness of the bytes received (including zero bytes
arriving before the timeout). -/
theorem claim_C3 (cmd buf : List Char) (buf_size timeout : Nat)
    (outcome : ReadOutcome) :
    (send_at cmd buf buf_size timeout outcome).err = EspErr.ESP_FAIL ↔
      outcome = ReadOutcome.err := by
  cases outcome <;> simp [send_at]

/-- C8: every `send_at` call acts on the UART in this order: flush the stale
input, write the command, write the CR-LF line terminator, then start the
blocking read. -/
theorem claim_C8 (cmd buf : List Char) (buf_size timeout : Nat)
    (outcome : ReadOutcome) :
    (send_at cmd buf buf_size timeout outcome).ops =
      [UartOp.flush, UartOp.write cmd, UartOp.write "\r\n".data,
       UartOp.read (buf_size - 1) timeout] := by
  cases outcome <;> rfl

/-- C7: when the read does not error and the capacity argument matches the
buffer (and is at least 1), at most `capacity - 1` bytes are stored, the NUL
terminator lands at the index equal to the number of bytes received, and the
buffer's size is unchanged (no out-of-bounds write). -/
theorem claim_C7 (cmd buf : List Char) (buf_size timeout : Nat)
    (avail : List Char) (hlen : buf.length = buf_size) (hpos : 1 ≤ buf_size) :
    (avail.take (buf_size - 1)).length ≤ buf_size - 1 ∧
    (send_at cmd buf buf_size timeout (ReadOutcome.data avail)).buf.take
        (avail.take (buf_size - 1)).length = avail.take (buf_size - 1) ∧
    (send_at cmd buf buf_size timeout (ReadOutcome.data avail)).buf[(avail.take (buf_size - 1)).length]? = some '\x00' ∧
    (send_at cmd buf buf_size timeout (ReadOutcome.data avail)).buf.length = buf.length := by
  have hbuf : (send_at cmd buf buf_size timeout (ReadOutcome.data avail)).buf =
      avail.take (buf_size - 1) ++ '\x00' :: buf.drop ((avail.take (buf_size - 1)).length + 1) := rfl
  have hle : (avail.take (buf_size - 1)).length ≤ buf_size - 1 := by
    rw [List.length_take]; exact min_le_left _ _
  refine ⟨hle, ?_, ?_, ?_⟩
  · rw [hbuf, List.take_left]
  · rw [hbuf, List.getElem?_append_right (le_refl _)]
    simp
  · rw [hbuf]
    simp only [List.length_append, List.length_cons, List.length_drop]
    omega

/-- Closed instance of `claim_C7` at a concrete call. -/
theorem claim_C7_witness :
    ("OKOKOK".data.take (4 - 1)).length ≤ 4 - 1 ∧
    (send_at "AT".data "abcd".data 4 500 (ReadOutcome.data "OKOKOK".data)).buf.take
        ("OKOKOK".data.take (4 - 1)).length = "OKOKOK".data.take (4 - 1) ∧
    (send_at "AT".data "abcd".data 4 500 (ReadOutcome.data "OKOKOK".data)).buf[("OKOKOK".data.take (4 - 1)).length]? = some '\x00' ∧
    (send_at "AT".data "abcd".data 4 500 (ReadOutcome.data "OKOKOK".data)).buf.length = "abcd".data.length :=
  claim_C7 "AT".data "abcd".data 4 500 "OKOKOK".data (by decide) (by decide)

/-- The commands recorded by one orchestration step. -/
theorem doSend_cmds (cmd : List Char) (t : Nat) (env : Nat → ReadOutcome)
    (s : SimSt) : ((doSend cmd t env s).2).cmds = s.cmds ++ [cmd] := rfl

/-- The eleven unconditional commands up to `AT+HTTPACTION=0`. -/
theorem sim_after_action_cmds (resp0 : List Char) (env : Nat → ReadOutcome) :
    (sim_after_action resp0 env).cmds = preCmds := rfl

/-- The full command trace of `sim_http_get_sample`: the fixed sequence with
the single length-gated `AT+HTTPREAD` insertion. -/
theorem sim_cmds_spec (resp0 : List Char) (env : Nat → ReadOutcome) :
    (sim_http_get_sample resp0 env).cmds =
      preCmds ++
        (if 0 < parsedLen resp0 env then [httpReadCmd (parsedLen resp0 env)] else []) ++
        postCmds := by
  have hlen : parse_http_length (cString (sim_after_action resp0 env).buf) =
      parsedLen resp0 env := rfl
  simp only [sim_http_get_sample, hlen, doSend_cmds]
  by_cases h : 0 < parsedLen resp0 env
  · simp [h, sim_after_action_cmds, doSend_cmds, postCmds]
  · simp [h, sim_after_action_cmds, postCmds]

/-- Helper: `(httpReadCmd l).take 8` is always `"AT+HTTPR"`. -/
theorem httpReadCmd_take_eight (l : Int) : (httpReadCmd l).take 8 = "AT+HTTPR".data := rfl

/-- Helper: no fixed command of the sequence is an `AT+HTTPREAD` command. -/
theorem httpReadCmd_ne_fixed (l : Int) (c : List Char)
    (hc : c ∈ preCmds ++ postCmds) : httpReadCmd l ≠ c := by
  intro heq
  have h8 : c.take 8 = "AT+HTTPR".data := heq ▸ httpReadCmd_take_eight l
  fin_cases hc <;> exact absurd h8 (by decide)

/-- C4: the follow-up `AT+HTTPREAD=0,<len>` (with `<len>` the parsed length)
is issued iff `parse_http_length` of the buffer left by the `AT+HTTPACTION=0`
step is strictly positive, and no other step of the sequence is conditional. -/
theorem claim_C4 (resp0 : List Char) (env : Nat → ReadOutcome) :
    ((∃ l, httpReadCmd l ∈ (sim_http_get_sample resp0 env).cmds) ↔
        0 < parsedLen resp0 env) ∧
    (0 < parsedLen resp0 env →
      (sim_http_get_sample resp0 env).cmds =
        preCmds ++ [httpReadCmd (parsedLen resp0 env)] ++ postCmds) ∧
    (¬ 0 < parsedLen resp0 env →
      (sim_http_get_sample resp0 env).cmds = preCmds ++ postCmds) := by
  have hspec := sim_cmds_spec resp0 env
  by_cases h : 0 < parsedLen resp0 env
  · rw [if_pos h] at hspec
    refine ⟨⟨fun _ => h, fun _ => ⟨parsedLen resp0 env, ?_⟩⟩,
      fun _ => hspec, fun hn => absurd h hn⟩
    rw [hspec]
    simp
  · rw [if_neg h] at hspec
    simp only [List.append_nil] at hspec
    refine ⟨⟨fun ⟨l, hl⟩ => ?_, fun hp => absurd hp h⟩,
      fun hp => absurd hp h, fun _ => hspec⟩
    rw [hspec] at hl
    exact absurd rfl (httpReadCmd_ne_fixed l _ hl)

/-- Closed instance of `claim_C4`: with a reply reporting length 7, the
follow-up read is part of the trace. -/
theorem claim_C4_witness :
    (sim_http_get_sample [] envAction7).cmds =
      preCmds ++ [httpReadCmd (parsedLen [] envAction7)] ++ postCmds :=
  (claim_C4 [] envAction7).2.1 (by decide)

/-- C5: the transport calls form one strictly linear sequence in source
order - PDP attach (`AT+CGATT?`), context (`AT+CGDCONT`), authentication
(`AT+CGAUTH`), activation (`AT+CGACT`), address query (`AT+CGPADDR`), HTTP
service setup and HTTPS request (`AT+HTTPTERM`, `AT+HTTPINIT`,
`AT+HTTPSSL=1`, the two `AT+HTTPPARA`, `AT+HTTPACTION=0`), the length-gated
follow-up read, then tear-down (`AT+HTTPTERM`, `AT+HTTPSSL=0`) - with no
other command interleaved and no step repeated. -/
theorem claim_C5 (resp0 : List Char) (env : Nat → ReadOutcome) :
    (sim_http_get_sample resp0 env).cmds =
      ["AT+CGATT?".data,
       "AT+CGDCONT=1,\"IP\",\"everywhere\"".data,
       "AT+CGAUTH=1,1,\"eesecure\",\"secure\"".data,
       "AT+CGACT=1,1".data,
       "AT+CGPADDR=1".data,
       "AT+HTTPTERM".data,
       "AT+HTTPINIT".data,
       "AT+HTTPSSL=1".data,
       "AT+HTTPPARA=\"URL\",\"https://alusys.io/test/sample.bin\"".data,
       "AT+HTTPPARA=\"READMODE\",1".data,
       "AT+HTTPACTION=0".data] ++
      (if 0 < parsedLen resp0 env then [httpReadCmd (parsedLen resp0 env)] else []) ++
      ["AT+HTTPTERM".data, "AT+HTTPSSL=0".data] :=
  sim_cmds_spec resp0 env

/-- C6: whatever the transport outcomes are - every read may fail - every
command other than the length-gated follow-up read is still issued, in order:
no `send_at` return value ever alters the remaining steps. -/
theorem claim_C6 (resp0 : List Char) (env : Nat → ReadOutcome) :
    ∃ opt, (sim_http_get_sample resp0 env).cmds = preCmds ++ opt ++ postCmds ∧
      opt.length ≤ 1 ∧ ∀ c ∈ opt, ∃ l, c = httpReadCmd l := by
  refine ⟨if 0 < parsedLen resp0 env then [httpReadCmd (parsedLen resp0 env)] else [],
    sim_cmds_spec resp0 env, ?_, ?_⟩ <;> split <;> simp

/-- C9: when the read errors, `send_at` returns `ESP_FAIL` without touching
the destination buffer; consequently, when the `AT+HTTPACTION=0` read (call
index 10) errors, `parse_http_length` operates on the stale buffer contents
left by the earlier commands. -/
theorem claim_C9 :
    (∀ (cmd buf : List Char) (buf_size timeout : Nat),
      (send_at cmd buf buf_size timeout ReadOutcome.err).err = EspErr.ESP_FAIL ∧
      (send_at cmd buf buf_size timeout ReadOutcome.err).buf = buf) ∧
    (∀ (resp0 : List Char) (env : Nat → ReadOutcome), env 10 = ReadOutcome.err →
      parsedLen resp0 env =
        parse_http_length (cString (sim_setup_steps resp0 env).buf)) := by
  refine ⟨fun cmd buf buf_size timeout => ⟨rfl, rfl⟩, fun resp0 env h => ?_⟩
  have hidx : (sim_setup_steps resp0 env).idx = 10 := rfl
  unfold parsedLen sim_after_action doSend
  rw [hidx, h]
  rfl

/-- Closed instance of `claim_C9` with every read erroring. -/
theorem claim_C9_witness :
    ((send_at "AT".data "abcd".data 4 500 ReadOutcome.err).err = EspErr.ESP_FAIL ∧
     (send_at "AT".data "abcd".data 4 500 ReadOutcome.err).buf = "abcd".data) ∧
    parsedLen [] envAllErr =
      parse_http_length (cString (sim_setup_steps [] envAllErr).buf) :=
  ⟨claim_C9.1 "AT".data "abcd".data 4 500, claim_C9.2 [] envAllErr rfl⟩

/-- `strchr` returns `none` exactly when the character does not occur. -/
theorem strchr_eq_none_iff (s : List Char) (c : Char) :
    strchr s c = none ↔ c ∉ s := by
  induction s with
  | nil => simp [strchr]
  | cons a t ih =>
    by_cases h : a = c
    · subst h
      simp [strchr]
    · have hca : ¬ c = a := fun he => h he.symm
      simp [strchr, h, ih, hca]

/-- A successful `strchr` splits the string at the first occurrence. -/
theorem strchr_eq_some (s : List Char) (c : Char) (u : List Char)
    (h : strchr s c = some u) :
    ∃ pre, s = pre ++ u ∧ c ∉ pre ∧ ∃ v, u = c :: v := by
  induction s with
  | nil => simp [strchr] at h
  | cons a t ih =>
    by_cases hac : a = c
    · subst hac
      rw [strchr, if_pos rfl] at h
      injection h with h
      exact ⟨[], by simp [h], by simp, t, h.symm⟩
    · simp only [strchr, if_neg hac] at h
      obtain ⟨pre, hpre, hmem, v, hv⟩ := ih h
      exact ⟨a :: pre, by simp [hpre], by
        simp only [List.mem_cons, not_or]
        exact ⟨fun he => hac he.symm, hmem⟩, v, hv⟩

/-- Scanning past characters that are not the target. -/
theorem strchr_append (u v : List Char) (c : Char) (h : c ∉ u) :
    strchr (u ++ v) c = strchr v c := by
  induction u with
  | nil => rfl
  | cons a t ih =>
    have ha : a ≠ c := fun he => h (he ▸ List.mem_cons_self a t)
    simp only [List.cons_append, strchr, if_neg ha]
    exact ih fun hm => h (List.mem_cons_of_mem a hm)

/-- `strstr` returns `none` exactly when the needle does not occur. -/
theorem strstr_eq_none_iff (s needle : List Char) :
    strstr s needle = none ↔ ¬ needle <:+: s := by
  induction s with
  | nil =>
    rw [strstr]
    by_cases h : needle.isPrefixOf ([] : List Char)
    · rw [if_pos h]
      rw [ List.isPrefixOf_iff_prefix] at h
      have hn : needle = [] := List.prefix_nil.mp h
      subst hn
      exact iff_of_false (by simp) (not_not_intro ⟨[], [], by simp⟩)
    · rw [if_neg h]
      rw [ List.isPrefixOf_iff_prefix] at h
      refine iff_of_true rfl fun hinf => h ?_
      obtain ⟨s1, t1, he⟩ := hinf
      have h1 : needle = [] := by
        simp only [List.append_eq_nil] at he
        exact he.1.2
      exact h1 ▸ List.prefix_rfl
  | cons a t ih =>
    rw [strstr]
    by_cases h : needle.isPrefixOf (a :: t)
    · rw [if_pos h]
      rw [ List.isPrefixOf_iff_prefix] at h
      exact iff_of_false (by simp)
        (not_not_intro (List.infix_cons_iff.mpr (Or.inl h)))
    · rw [if_neg h]
      rw [ List.isPrefixOf_iff_prefix] at h
      rw [ih, List.infix_cons_iff]
      constructor
      · intro hn hor
        rcases hor with hp | hi
        · exact h hp
        · exact hn hi
      · intro hn hi
        exact hn (Or.inr hi)

/-- C2: for every input lacking the marker `"+HTTPACTION:"`, and for every
input containing it but with fewer than two commas at or after its first
occurrence, `parse_http_length` returns 0. -/
theorem claim_C2 :
    (∀ s : List Char, ¬ ("+HTTPACTION:".data <:+: s) → parse_http_length s = 0) ∧
    (∀ s t : List Char, strstr s "+HTTPACTION:".data = some t →
      t.count ',' < 2 → parse_http_length s = 0) := by
  constructor
  · intro s h
    unfold parse_http_length
    rw [(strstr_eq_none_iff s _).mpr h]
  · intro s t hs hc
    unfold parse_http_length
    split
    · rfl
    rename_i p hp
    rw [hs] at hp
    injection hp with hp
    subst hp
    split
    · rfl
    rename_i q hq
    obtain ⟨pre, hpre, hmem, v, hv⟩ := strchr_eq_some t ',' q hq
    subst hv
    have hvz : (',' : Char) ∉ v := by
      rw [hpre] at hc
      simp only [List.count_append, List.count_cons_self] at hc
      rw [← List.count_eq_zero]
      omega
    simp only [List.tail_cons]
    rw [(strchr_eq_none_iff v ',').mpr hvz]

/-- Closed instance of `claim_C2`: no marker, and marker with one comma. -/
theorem claim_C2_witness :
    parse_http_length "OK".data = 0 ∧
    parse_http_length "+HTTPACTION: 0,200".data = 0 :=
  ⟨claim_C2.1 "OK".data (by decide),
   claim_C2.2 "+HTTPACTION: 0,200".data "+HTTPACTION: 0,200".data
     (by decide) (by decide)⟩

/-- The fuel is irrelevant once it dominates the argument. -/
theorem natDigitsRevAux_fuel :
    ∀ fuel1 fuel2 n, n ≤ fuel1 → n ≤ fuel2 →
      natDigitsRevAux fuel1 n = natDigitsRevAux fuel2 n := by
  intro fuel1
  induction fuel1 with
  | zero =>
    intro fuel2 n h1 _
    have hn : n = 0 := Nat.le_zero.mp h1
    subst hn
    cases fuel2 <;> rfl
  | succ f1 ih =>
    intro fuel2 n h1 h2
    match n with
    | 0 => cases fuel2 <;> rfl
    | m + 1 =>
      match fuel2 with
      | 0 => exact absurd h2 (by omega)
      | f2 + 1 =>
        show Nat.digitChar ((m + 1) % 10) :: natDigitsRevAux f1 ((m + 1) / 10) =
          Nat.digitChar ((m + 1) % 10) :: natDigitsRevAux f2 ((m + 1) / 10)
        have hq : (m + 1) / 10 < m + 1 := Nat.div_lt_self (Nat.succ_pos m) (by norm_num)
        rw [ih f2 ((m + 1) / 10) (by omega) (by omega)]

/-- The recursion equation of `natDigitsRev` on successors. -/
theorem natDigitsRev_succ (m : Nat) :
    natDigitsRev (m + 1) =
      Nat.digitChar ((m + 1) % 10) :: natDigitsRev ((m + 1) / 10) := by
  show natDigitsRevAux (m + 1) (m + 1) = _
  have hq : (m + 1) / 10 < m + 1 := Nat.div_lt_self (Nat.succ_pos m) (by norm_num)
  show Nat.digitChar ((m + 1) % 10) :: natDigitsRevAux m ((m + 1) / 10) = _
  rw [natDigitsRevAux_fuel m ((m + 1) / 10) ((m + 1) / 10) (by omega) (le_refl _)]
  rfl

/-- Every character produced by `natDigitsRev` is one of the ten digits. -/
theorem natDigitsRev_subset (n : Nat) :
    ∀ c ∈ natDigitsRev n, c ∈ "0123456789".data := by
  induction n using Nat.strong_induction_on with
  | _ n ih =>
    match n with
    | 0 =>
      simp [natDigitsRev, natDigitsRevAux]
    | m + 1 =>
      rw [natDigitsRev_succ]
      intro c hc
      rcases List.mem_cons.mp hc with h | h
      · subst h
        have hr : (m + 1) % 10 < 10 := Nat.mod_lt _ (by norm_num)
        set r := (m + 1) % 10 with hrdef
        interval_cases r <;> decide
      · exact ih ((m + 1) / 10) (Nat.div_lt_self (Nat.succ_pos m) (by norm_num)) c h

/-- Every character of the canonical decimal rendering is a digit. -/
theorem natDecimal_subset (n : Nat) :
    ∀ c ∈ natDecimal n, c ∈ "0123456789".data := by
  unfold natDecimal
  split
  · simp
  · intro c hc
    exact natDigitsRev_subset n c (List.mem_reverse.mp hc)

/-- Digit characters are digits and are neither whitespace nor a sign. -/
theorem digit_char_props (c : Char) (h : c ∈ "0123456789".data) :
    c.isDigit = true ∧ isCSpace c = false ∧ c ≠ '-' ∧ c ≠ '+' := by
  fin_cases h <;> exact ⟨by decide, by decide, by decide, by decide⟩

/-- `digitsToNat` consumes an all-digit block first. -/
theorem digitsToNat_append (acc : Nat) (xs ys : List Char)
    (h : ∀ c ∈ xs, c.isDigit = true) :
    digitsToNat acc (xs ++ ys) = digitsToNat (digitsToNat acc xs) ys := by
  induction xs generalizing acc with
  | nil => rfl
  | cons a t ih =>
    have ha := h a (List.mem_cons_self a t)
    simp only [List.cons_append, digitsToNat, if_pos ha]
    exact ih _ fun c hc => h c (List.mem_cons_of_mem a hc)

/-- Value of the digit-accumulation loop on a canonical digit string. -/
theorem digitsToNat_natDigitsRev (n : Nat) :
    ∀ acc, digitsToNat acc (natDigitsRev n).reverse =
      acc * 10 ^ (natDigitsRev n).length + n := by
  induction n using Nat.strong_induction_on with
  | _ n ih =>
    match n with
    | 0 =>
      intro acc
      simp [natDigitsRev, natDigitsRevAux, digitsToNat]
    | m + 1 =>
      intro acc
      rw [natDigitsRev_succ]
      simp only [List.reverse_cons, List.length_cons]
      rw [digitsToNat_append _ _ _
        (fun c hc => (digit_char_props c
          (natDigitsRev_subset _ c (List.mem_reverse.mp hc))).1)]
      rw [ih ((m + 1) / 10) (Nat.div_lt_self (Nat.succ_pos m) (by norm_num)) acc]
      have hr : (m + 1) % 10 < 10 := Nat.mod_lt _ (by norm_num)
      have hchar : (Nat.digitChar ((m + 1) % 10)).isDigit = true ∧
          (Nat.digitChar ((m + 1) % 10)).toNat - 48 = (m + 1) % 10 := by
        set r := (m + 1) % 10 with hrdef
        interval_cases r <;> exact ⟨by decide, by decide⟩
      simp only [digitsToNat, if_pos hchar.1, hchar.2]
      have hmod : (m + 1) / 10 * 10 + (m + 1) % 10 = m + 1 := by omega
      ring_nf
      omega

/-- `atoi` recovers the value of a canonical decimal rendering. -/
theorem atoi_natDecimal (n : Nat) : atoi (natDecimal n) = (n : Int) := by
  by_cases h0 : n = 0
  · subst h0
    decide
  · have hsub := natDecimal_subset n
    unfold natDecimal at hsub ⊢
    rw [if_neg h0] at hsub ⊢
    have hne : (natDigitsRev n).reverse ≠ [] := by
      intro he
      apply h0
      have : natDigitsRev n = [] := by
        have := congrArg List.reverse he
        simpa using this
      cases hn : n with
      | zero => rfl
      | succ m =>
        rw [hn] at this
        rw [natDigitsRev_succ] at this
        exact absurd this (by simp)
    obtain ⟨c, t, hct⟩ := List.exists_cons_of_ne_nil hne
    have hc := digit_char_props c (hsub c (hct ▸ List.mem_cons_self c t))
    unfold atoi
    rw [hct]
    rw [List.dropWhile_cons]
    rw [if_neg (by rw [hc.2.1]; exact Bool.false_ne_true)]
    show (if c = '-' then -(digitsToNat 0 t : Int)
      else if c = '+' then (digitsToNat 0 t : Int)
      else (digitsToNat 0 (c :: t) : Int)) = (n : Int)
    rw [if_neg hc.2.2.1, if_neg hc.2.2.2]
    rw [← hct]
    rw [digitsToNat_natDigitsRev n 0]
    simp

/-- `strstr` on `pre ++ needle ++ rest` when `needle` does not occur in
`pre`: it finds an occurrence that starts at or after the boundary overlap,
so the scan resumes with some final segment `ov` of `pre` prepended. -/
theorem strstr_split (needle pre rest : List Char)
    (h : ¬ needle <:+: pre) :
    ∃ ov, ov <:+ pre ∧ needle <+: (ov ++ needle ++ rest) ∧
      strstr (pre ++ needle ++ rest) needle = some (ov ++ needle ++ rest) := by
  induction pre with
  | nil =>
    have hpre : needle.isPrefixOf ([] ++ needle ++ rest) = true := by
      rw [ List.isPrefixOf_iff_prefix]
      simp
    refine ⟨[], List.suffix_refl [], by simp, ?_⟩
    rw [strstr.eq_def, if_pos hpre]
  | cons a pre ih =>
    by_cases hp : needle.isPrefixOf ((a :: pre) ++ needle ++ rest)
    · refine ⟨a :: pre, List.suffix_refl _, ?_, ?_⟩
      · exact List.isPrefixOf_iff_prefix.mp hp
      · rw [strstr.eq_def, if_pos hp]
    · have h' : ¬ needle <:+: pre := fun hi => h (List.infix_cons hi)
      obtain ⟨ov, hsuf, hpref, hstr⟩ := ih h'
      refine ⟨ov, hsuf.trans (List.suffix_cons a pre), hpref, ?_⟩
      have hshape : (a :: pre) ++ needle ++ rest = a :: (pre ++ needle ++ rest) := by
        simp
      rw [hshape, strstr.eq_def]
      rw [if_neg (by rw [← hshape]; exact hp)]
      exact hstr

/-- The marker `"+HTTPACTION:"` contains no comma, so when the prefix does
not contain the marker, the segment `ov` that `strstr` keeps in front of it
contains no comma either. -/
theorem strstr_marker_split (pre rest : List Char)
    (h : ¬ ("+HTTPACTION:".data <:+: pre)) :
    ∃ ov, (',' : Char) ∉ ov ∧
      strstr (pre ++ "+HTTPACTION:".data ++ rest) "+HTTPACTION:".data =
        some (ov ++ "+HTTPACTION:".data ++ rest) := by
  obtain ⟨ov, hsuf, hpref, hstr⟩ := strstr_split "+HTTPACTION:".data pre rest h
  refine ⟨ov, ?_, hstr⟩
  have h1 : ov <+: ov ++ ("+HTTPACTION:".data ++ rest) := List.prefix_append ov _
  have h2 : "+HTTPACTION:".data <+: ov ++ ("+HTTPACTION:".data ++ rest) := by
    rw [← List.append_assoc]
    exact hpref
  by_cases hl : "+HTTPACTION:".data.length ≤ ov.length
  · exfalso
    have hov : "+HTTPACTION:".data <+: ov :=
      List.prefix_of_prefix_length_le h2 h1 hl
    obtain ⟨w, hw⟩ := hov
    obtain ⟨u, hu⟩ := hsuf
    exact h ⟨u, w, by rw [← hu, ← hw]; simp⟩
  · push_neg at hl
    have hovp : ov <+: "+HTTPACTION:".data :=
      List.prefix_of_prefix_length_le h1 h2 (Nat.le_of_lt hl)
    intro hmem
    exact absurd (hovp.sublist.subset hmem) (by decide)

/-- `strchr` at an immediate hit. -/
theorem strchr_cons_self (v : List Char) (c : Char) :
    strchr (c :: v) c = some (c :: v) := by
  simp [strchr]

/-- Evaluation of `parse_http_length` along a successful scan. -/
theorem parse_http_length_eval (resp p u v : List Char)
    (hp : strstr resp "+HTTPACTION:".data = some p)
    (hu : strchr p ',' = some u) (hv : strchr u.tail ',' = some v) :
    parse_http_length resp = atoi v.tail := by
  unfold parse_http_length
  rw [hp]
  show (match strchr p ',' with
    | none => (0 : Int)
    | some q =>
      match strchr q.tail ',' with
      | none => 0
      | some r => atoi r.tail) = atoi v.tail
  rw [hu]
  show (match strchr u.tail ',' with
    | none => (0 : Int)
    | some r => atoi r.tail) = atoi v.tail
  rw [hv]

/-- C1 (amended): for every input made of a prefix that does not contain the
marker `"+HTTPACTION:"`, the marker, two comma-free fields separated by a
comma, a comma, and the decimal digits of a natural number `N`,
`parse_http_length` returns `N`. -/
theorem claim_C1 (pre f1 f2 : List Char) (N : Nat)
    (hpre : ¬ ("+HTTPACTION:".data <:+: pre))
    (hf1 : (',' : Char) ∉ f1) (hf2 : (',' : Char) ∉ f2) :
    parse_http_length
      (pre ++ "+HTTPACTION:".data ++ (f1 ++ (',' :: (f2 ++ (',' :: natDecimal N)))))
      = (N : Int) := by
  obtain ⟨ov, hov, hstr⟩ :=
    strstr_marker_split pre (f1 ++ (',' :: (f2 ++ (',' :: natDecimal N)))) hpre
  have hnc : (',' : Char) ∉ (ov ++ "+HTTPACTION:".data) ++ f1 := by
    intro hm
    rcases List.mem_append.mp hm with hm | hm
    · rcases List.mem_append.mp hm with hm | hm
      · exact hov hm
      · exact absurd hm (by decide)
    · exact hf1 hm
  have hu : strchr (ov ++ "+HTTPACTION:".data ++ (f1 ++ (',' :: (f2 ++ (',' :: natDecimal N))))) ','
      = some (',' :: (f2 ++ (',' :: natDecimal N))) := by
    rw [← List.append_assoc (ov ++ "+HTTPACTION:".data) f1
      (',' :: (f2 ++ (',' :: natDecimal N)))]
    rw [strchr_append _ _ _ hnc, strchr_cons_self]
  have hv : strchr (f2 ++ (',' :: natDecimal N)) ',' = some (',' :: natDecimal N) := by
    rw [strchr_append _ _ _ hf2, strchr_cons_self]
  rw [parse_http_length_eval _ _ _ _ hstr hu (by simpa using hv)]
  simpa using atoi_natDecimal N

/-- C1 as stated is false: the quantifier admits prefixes that themselves
contain the marker, and the scan then parses from the earlier occurrence.
The displayed input has the claimed shape (prefix `"+HTTPACTION:,,"`,
marker, comma-free fields `"0"` and `"200"`, and the digits of 4096), yet
`parse_http_length` returns 0, not 4096. -/
theorem claim_C1_counterexample :
    "+HTTPACTION:,,+HTTPACTION:0,200,4096".data =
      "+HTTPACTION:,,".data ++ "+HTTPACTION:".data ++
        ("0".data ++ (',' :: ("200".data ++ (',' :: natDecimal 4096)))) ∧
    (',' : Char) ∉ "0".data ∧ (',' : Char) ∉ "200".data ∧
    parse_http_length "+HTTPACTION:,,+HTTPACTION:0,200,4096".data ≠ (4096 : Int) := by
  refine ⟨by decide, by decide, by decide, by decide⟩

/-- Closed instance of `claim_C1`: both examples named by the spec. -/
theorem claim_C1_witness :
    parse_http_length
      ([] ++ "+HTTPACTION:".data ++
        (" 0".data ++ (',' :: ("200".data ++ (',' :: natDecimal 4096))))) = (4096 : Int) ∧
    parse_http_length
      ([] ++ "+HTTPACTION:".data ++
        (" 0".data ++ (',' :: ("404".data ++ (',' :: natDecimal 0))))) = (0 : Int) :=
  ⟨claim_C1 [] " 0".data "200".data 4096 (by decide) (by decide) (by decide),
   claim_C1 [] " 0".data "404".data 0 (by decide) (by decide) (by decide)⟩

/-- Digit-count bound: a number below `10 ^ k` has at most `k` digits. -/
theorem natDigitsRev_length_le (k : Nat) :
    ∀ n, n < 10 ^ k → (natDigitsRev n).length ≤ k := by
  induction k with
  | zero =>
    intro n h
    have hn : n = 0 := by simpa using h
    subst hn
    simp [natDigitsRev, natDigitsRevAux]
  | succ k ih =>
    intro n h
    match n with
    | 0 => simp [natDigitsRev, natDigitsRevAux]
    | m + 1 =>
      rw [natDigitsRev_succ]
      simp only [List.length_cons]
      have hq : (m + 1) / 10 < 10 ^ k := by
        rw [Nat.div_lt_iff_lt_mul (by norm_num : (0:Nat) < 10)]
        calc m + 1 < 10 ^ (k + 1) := h
          _ = 10 ^ k * 10 := by ring
      exact Nat.succ_le_succ (ih _ hq)

/-- Decimal-rendering length bound. -/
theorem natDecimal_length_le (n k : Nat) (hk : 1 ≤ k) (h : n < 10 ^ k) :
    (natDecimal n).length ≤ k := by
  unfold natDecimal
  split
  · simpa using hk
  · rw [List.length_reverse]
    exact natDigitsRev_length_le k n h

/-- C10: for every 32-bit `int` value `len`, `"AT+HTTPREAD=0,<len>"` fits in
the 32-byte command buffer with its NUL terminator (14 prefix characters plus
at most 11 for the decimal rendering), so `snprintf` never truncates it. -/
theorem claim_C10 (len : Int) (h1 : -(2 ^ 31) ≤ len) (h2 : len < 2 ^ 31) :
    (httpReadCmdFull len).length + 1 ≤ 32 ∧ httpReadCmd len = httpReadCmdFull len := by
  have hpow : (2:Int) ^ 31 = 2147483648 := by norm_num
  have hpow10 : (10:Nat) ^ 10 = 10000000000 := by norm_num
  have hd : (intDecimal len).length ≤ 11 := by
    unfold intDecimal
    split
    · simp only [List.length_cons]
      have hchk : len.natAbs < 10 ^ 10 := by omega
      have := natDecimal_length_le len.natAbs 10 (by norm_num) hchk
      omega
    · have hchk : len.toNat < 10 ^ 10 := by omega
      have := natDecimal_length_le len.toNat 10 (by norm_num) hchk
      omega
  have h14 : ("AT+HTTPREAD=0,".data).length = 14 := by decide
  constructor
  · unfold httpReadCmdFull
    rw [List.length_append, h14]
    omega
  · unfold httpReadCmd httpReadCmdFull
    apply List.take_of_length_le
    rw [List.length_append, h14]
    omega

/-- Closed instance of `claim_C10` at the example length 4096. -/
theorem claim_C10_witness :
    (httpReadCmdFull 4096).length + 1 ≤ 32 ∧ httpReadCmd 4096 = httpReadCmdFull 4096 :=
  claim_C10 4096 (by norm_num) (by norm_num)

end HelloHttpSim
